import Mathlib

/-!
Shallow embedding of the KnowledgeSync core (knowledgesync.py): the
KnowledgeEntry data model, the topic KnowledgeGraph, and the KnowledgeSync
store engine with its CRUD, query and merge operations.

Modelling conventions:
- Python `datetime` timestamps are modelled as `Int` seconds
  (`timedelta(days=d)` is `d * 86400` seconds); each operation that calls
  `datetime.now()` takes the current instant as an explicit `now` argument.
- Python `float` is modelled as `ℚ`.
- Python `dict` is modelled as an association list that preserves insertion
  order: overwriting an existing key keeps its position, a new key is
  appended, matching CPython dict semantics.
- `str.lower` / `str.upper` / `str.strip` / substring `in` are modelled
  character-wise (ASCII case mapping, the whitespace characters space, tab,
  newline, carriage return).
- The sha256-derived entry id (hash of "content:source:created" truncated to
  16 hex chars) is modelled by the hash input string itself: the claims under
  study never depend on the shape of the id, only on its determinism.
- File I/O (`_load`, `_save`), the CLI, the regex extraction helpers and the
  subscription callbacks are outside the embedded core: they never modify
  `entries`, `graph` or `sync_log` beyond what the embedded operations do.
-/

/-- Character-wise lowercase, modelling Python `str.lower` on ASCII data. -/
def lowerStr (s : String) : String := ⟨s.data.map Char.toLower⟩

/-- Character-wise uppercase, modelling Python `str.upper` on ASCII data. -/
def upperStr (s : String) : String := ⟨s.data.map Char.toUpper⟩

/-- Whitespace test used by `trimStr`, modelling `str.strip`'s default set. -/
def isWS (c : Char) : Bool := c == ' ' || c == '\t' || c == '\n' || c == '\r'

/-- Strip leading and trailing whitespace, modelling Python `str.strip()`. -/
def trimStr (s : String) : String :=
  ⟨((s.data.dropWhile isWS).reverse.dropWhile isWS).reverse⟩

/-- Helper for `strContains`: does `pat` occur as a contiguous run of `hay`? -/
def subListOf (pat : List Char) : List Char → Bool
  | [] => pat.isEmpty
  | c :: rest => pat.isPrefixOf (c :: rest) || subListOf pat rest

/-- Substring test, modelling Python `pat in hay` on strings. -/
def strContains (hay pat : String) : Bool := subListOf pat.data hay.data

/-- Python `max` on two rationals (models `max` on floats). -/
def qmax (a b : ℚ) : ℚ := if a ≤ b then b else a

/-- Python `min` on two rationals (models `min` on floats). -/
def qmin (a b : ℚ) : ℚ := if a ≤ b then a else b

/-- Lookup in an insertion-ordered association list (Python `d[k]` / `k in d`). -/
def alookup {β : Type} (k : String) : List (String × β) → Option β
  | [] => none
  | (k', v) :: rest => if k = k' then some v else alookup k rest

/-- Write `d[k] = v` on an insertion-ordered association list: an existing key
keeps its position, a new key is appended, matching CPython dict semantics. -/
def aset {β : Type} (k : String) (v : β) : List (String × β) → List (String × β)
  | [] => [(k, v)]
  | (k', v') :: rest => if k = k' then (k, v) :: rest else (k', v') :: aset k v rest

/-- Delete a key from an association list (Python `del d[k]`). -/
def aremove {β : Type} (k : String) : List (String × β) → List (String × β)
  | [] => []
  | (k', v') :: rest => if k = k' then rest else (k', v') :: aremove k rest

/-- The closed category set `CATEGORIES` of knowledgesync.py (its keys). -/
def CATEGORIES : List String :=
  ["DECISION", "FINDING", "PROBLEM", "SOLUTION", "TODO",
   "REFERENCE", "CONFIG", "RELATIONSHIP", "FACT", "INSIGHT"]

/-- The `KnowledgeEntry` record: one knowledge item with provenance, category,
confidence, topic tags and optional expiry. -/
structure KnowledgeEntry where
  entryId : String
  content : String
  source : String
  category : String
  topics : List String
  confidence : ℚ
  created : Int
  updated : Int
  expires : Option Int
  references : List String
  metadata : List (String × String)
deriving DecidableEq

/-- The id derivation of `KnowledgeEntry.__init__`: sha256 of
`f"{content}:{source}:{created.isoformat()}"` truncated to 16 hex characters.
The hash itself is modelled by its (injective up to separators) input string;
no claim depends on the concrete digest. -/
def deriveId (content source : String) (created : Int) : String :=
  content ++ ":" ++ source ++ ":" ++ toString created

/-- The `KnowledgeEntry.__init__` constructor. Mirrors the Python argument
handling: source uppercased; category uppercased and coerced to "FACT" when
not in `CATEGORIES`; topics lowercased; confidence clamped to [0, 1];
`updated` defaulting to `created` defaulting to now; the id derived unless a
(truthy, i.e. non-empty) explicit id is supplied. It performs no validation
of `content`. -/
def mkEntry (now : Int) (content source category : String) (topics : List String)
    (confidence : ℚ) (expires : Option Int) (references : List String)
    (metadata : List (String × String)) (entryId : Option String)
    (created updated : Option Int) : KnowledgeEntry :=
  let createdV := created.getD now
  { entryId := match entryId with
      | some s => if s = "" then deriveId content source createdV else s
      | none => deriveId content source createdV
    content := content
    source := upperStr source
    category := if CATEGORIES.contains (upperStr category) then upperStr category else "FACT"
    topics := topics.map lowerStr
    confidence := qmin 1 (qmax 0 confidence)
    created := createdV
    updated := updated.getD createdV
    expires := expires
    references := references
    metadata := metadata }

/-- `KnowledgeEntry.is_expired`: true iff an expiry is set and strictly in the
past (`datetime.now() > self.expires`). -/
def KnowledgeEntry.isExpired (e : KnowledgeEntry) (now : Int) : Bool :=
  match e.expires with
  | none => false
  | some t => decide (t < now)

/-- `KnowledgeEntry.matches_query`: case-insensitive substring test against
content, each topic, and category. -/
def KnowledgeEntry.matchesQuery (e : KnowledgeEntry) (q : String) : Bool :=
  let ql := lowerStr q
  strContains (lowerStr e.content) ql
    || e.topics.any (fun t => strContains t ql)
    || strContains (lowerStr e.category) ql

/-- Metadata attached to a graph node: creation instant and reference count
(the `created` / `references` keys of the Python node dict). -/
structure NodeMeta where
  created : Int
  references : Nat
deriving DecidableEq

/-- One edge of the topic graph, as in the Python edge dict. -/
structure GraphEdge where
  source : String
  target : String
  relation : String
  weight : ℚ
  created : Int
deriving DecidableEq

/-- The `KnowledgeGraph`: nodes keyed by topic string, plus an edge list. -/
structure KnowledgeGraph where
  nodes : List (String × NodeMeta)
  edges : List GraphEdge
deriving DecidableEq

def KnowledgeGraph.empty : KnowledgeGraph := ⟨[], []⟩

/-- `KnowledgeGraph.add_node`: lowercase the topic, create the node with
reference count 0 if absent, then increment the count (so a fresh node ends
at 1). The optional `metadata` parameter of the Python method is omitted: no
caller inside the core ever passes it. -/
def KnowledgeGraph.addNode (g : KnowledgeGraph) (topic : String) (now : Int) :
    KnowledgeGraph :=
  let t := lowerStr topic
  match alookup t g.nodes with
  | none => { g with nodes := g.nodes ++ [(t, ⟨now, 1⟩)] }
  | some m => { g with nodes := aset t ⟨m.created, m.references + 1⟩ g.nodes }

/-- The edge-scan loop of `KnowledgeGraph.add_edge`: update the first edge
whose ordered `(source, target)` pair matches (weight to the max, relation to
the newest), or report `none` if no edge matches. -/
def updFirst (s t rel : String) (w : ℚ) : List GraphEdge → Option (List GraphEdge)
  | [] => none
  | e :: rest =>
    if e.source = s ∧ e.target = t then
      some ({ e with weight := qmax e.weight w, relation := rel } :: rest)
    else
      (updFirst s t rel w rest).map (e :: ·)

/-- `KnowledgeGraph.add_edge`: lowercase both endpoints, ensure both exist as
nodes (each reference-counted), then update the first edge with the same
ordered `(source, target)` pair, or append a new edge. -/
def KnowledgeGraph.addEdge (g : KnowledgeGraph) (s t rel : String) (w : ℚ)
    (now : Int) : KnowledgeGraph :=
  let s' := lowerStr s
  let t' := lowerStr t
  let g1 := (g.addNode s' now).addNode t' now
  match updFirst s' t' rel w g1.edges with
  | some es => { g1 with edges := es }
  | none => { g1 with edges := g1.edges ++ [⟨s', t', rel, w, now⟩] }

/-- Add to a list those elements not already present (set-insert on the list
model of a Python set; only membership is ever observed). -/
def insertAbsent (x : String) (l : List String) : List String :=
  if x ∈ l then l else l ++ [x]

/-- One ring of the breadth-first traversal of `KnowledgeGraph.get_related`:
all unvisited neighbours of the current level, treating edges as undirected. -/
def nextLevel (edges : List GraphEdge) (visited current : List String) :
    List String :=
  current.foldl (fun nl node =>
    edges.foldl (fun nl e =>
      if e.source = node ∧ e.target ∉ visited then insertAbsent e.target nl
      else if e.target = node ∧ e.source ∉ visited then insertAbsent e.source nl
      else nl) nl) []

/-- The depth-bounded loop of `KnowledgeGraph.get_related`. -/
def getRelatedAux (edges : List GraphEdge) :
    Nat → List String → List String → List String → List String
  | 0, _, related, _ => related
  | d + 1, visited, related, current =>
    let nl := nextLevel edges visited current
    if nl.isEmpty then related
    else getRelatedAux edges d (visited ++ nl)
      (nl.foldl (fun r x => insertAbsent x r) related) nl

/-- `KnowledgeGraph.get_related`: breadth-first related-topic search up to
`depth` hops, excluding the origin; empty if the topic is unknown. -/
def KnowledgeGraph.getRelated (g : KnowledgeGraph) (topic : String) (depth : Nat) :
    List String :=
  let t := lowerStr topic
  match alookup t g.nodes with
  | none => []
  | some _ => getRelatedAux g.edges depth [t] [] [t]

/-- Reference count recorded for a topic key, 0 if the node is absent
(`self.nodes[topic].get("references", 0)` with a missing node reading as 0). -/
def KnowledgeGraph.refCount (g : KnowledgeGraph) (t : String) : Nat :=
  match alookup t g.nodes with
  | none => 0
  | some m => m.references

/-- The three merge counters returned by `sync` / `import_from_sync`. -/
structure SyncStats where
  added : Nat
  updated : Nat
  conflicts : Nat
deriving DecidableEq

/-- One record of the sync log appended by a live-store `sync`. -/
structure SyncRecord where
  timestamp : Int
  agent : String
  syncedWith : String
  stats : SyncStats
deriving DecidableEq

/-- The in-memory state owned by a `KnowledgeSync` instance: agent identity,
the id-keyed entry map, the topic graph, and the sync log. The persistence
boundary (`_load` / `_save`), `auto_sync` flag and subscription callbacks do
not touch this state and are outside the embedding. -/
structure Store where
  agent : String
  entries : List (String × KnowledgeEntry)
  graph : KnowledgeGraph
  syncLog : List SyncRecord
deriving DecidableEq

/-- `KnowledgeSync.__init__` with empty storage: agent uppercased, no entries,
empty graph, empty sync log. -/
def Store.init (agent : String) : Store :=
  ⟨upperStr agent, [], KnowledgeGraph.empty, []⟩

/-- All unordered index pairs of a topic list, in the nested-loop order of
`KnowledgeSync.add` (`for i, t1 in enumerate(topics): for t2 in topics[i+1:]`). -/
def coPairs : List String → List (String × String)
  | [] => []
  | t :: rest => rest.map (fun u => (t, u)) ++ coPairs rest

/-- The graph maintenance performed by `KnowledgeSync.add`: every topic is
added as a node, then a "co-occurs" edge of weight 1 is added between every
unordered topic pair, in the source's nested-loop order. -/
def addTopicsGraph (g : KnowledgeGraph) (ts : List String) (now : Int) :
    KnowledgeGraph :=
  (coPairs ts).foldl (fun g p => g.addEdge p.1 p.2 "co-occurs" 1 now)
    (ts.foldl (fun g t => g.addNode t now) g)

/-- `KnowledgeSync.add`: reject empty or whitespace-only content with a
`ValueError`, otherwise build the entry (trimmed content, the store's agent as
source, expiry `now + days * 86400` when `expires_in_days` is truthy, i.e.
non-zero), insert it by id, add every topic as a graph node and a "co-occurs"
edge of weight 1 between every unordered topic pair. -/
def Store.add (s : Store) (content category : String) (topics : List String)
    (confidence : ℚ) (expiresInDays : Option Int) (references : List String)
    (metadata : List (String × String)) (now : Int) :
    Except String (Store × KnowledgeEntry) :=
  if trimStr content = "" then .error "Content cannot be empty"
  else
    let expires : Option Int := match expiresInDays with
      | none => none
      | some d => if d = 0 then none else some (now + d * 86400)
    let e := mkEntry now (trimStr content) s.agent category topics confidence
      expires references metadata none none none
    .ok ({ s with
            entries := aset e.entryId e s.entries
            graph := addTopicsGraph s.graph e.topics now }, e)

/-- `KnowledgeSync.update`: partial in-place update of an existing entry; each
supplied field overwrites (metadata merges key-by-key), `updated` is bumped to
now, and the graph is untouched. `none` is returned for an unknown id. Note
content gets no validation and category no membership coercion here. -/
def Store.update (s : Store) (entryId : String) (content category : Option String)
    (topics : Option (List String)) (confidence : Option ℚ)
    (metadata : Option (List (String × String))) (now : Int) :
    Option (Store × KnowledgeEntry) :=
  match alookup entryId s.entries with
  | none => none
  | some e0 =>
    let e1 := match content with
      | none => e0 | some c => { e0 with content := trimStr c }
    let e2 := match category with
      | none => e1 | some c => { e1 with category := upperStr c }
    let e3 := match topics with
      | none => e2 | some ts => { e2 with topics := ts.map lowerStr }
    let e4 := match confidence with
      | none => e3 | some c => { e3 with confidence := qmin 1 (qmax 0 c) }
    let e5 := match metadata with
      | none => e4
      | some m =>
        { e4 with metadata := m.foldl (fun acc (p : String × String) => aset p.1 p.2 acc) e4.metadata }
    let e6 := { e5 with updated := now }
    some ({ s with entries := aset entryId e6 s.entries }, e6)

/-- `KnowledgeSync.delete`: remove the entry from the map only (the graph is
never pruned); the Bool reports whether the id was present. -/
def Store.delete (s : Store) (entryId : String) : Store × Bool :=
  match alookup entryId s.entries with
  | none => (s, false)
  | some _ => ({ s with entries := aremove entryId s.entries }, true)

/-- `KnowledgeSync.get`. -/
def Store.get (s : Store) (entryId : String) : Option KnowledgeEntry :=
  alookup entryId s.entries

/-- `KnowledgeSync.cleanup_expired`: drop every expired entry, returning the
new store and the removed count. -/
def Store.cleanupExpired (s : Store) (now : Int) : Store × Nat :=
  (({ s with entries := s.entries.filter (fun p => !(p.2.isExpired now)) }),
   (s.entries.filter (fun p => p.2.isExpired now)).length)

/-- The descending composite ranking of `KnowledgeSync.query`: `rankLe a b`
states that `a`'s key `(confidence, updated)` is lexicographically at most
`b`'s, so the sort places higher keys first. -/
def rankLe (a b : KnowledgeEntry) : Bool :=
  decide (a.confidence < b.confidence)
    || (decide (a.confidence = b.confidence) && decide (a.updated ≤ b.updated))

/-- The per-entry filter chain of `KnowledgeSync.query`, with Python truthiness
for the optional `source` / `category` / `search` arguments (an empty string
disables the filter, as falsy strings do in the Python `if`s). -/
def queryPasses (search : String) (source category : Option String)
    (expanded : List String) (minConfidence : ℚ) (now : Int)
    (e : KnowledgeEntry) : Bool :=
  !(e.isExpired now)
    && (match source with
        | none => true
        | some src => src == "" || e.source == upperStr src)
    && (match category with
        | none => true
        | some c => c == "" || e.category == upperStr c)
    && decide (minConfidence ≤ e.confidence)
    && (expanded.isEmpty || e.topics.any (fun t => t ∈ expanded))
    && (search == "" || e.matchesQuery search)

/-- The sort relation of `KnowledgeSync.query` as a decidable Prop relation:
`rankGE a b` places `a` no later than `b` (key at least `b`'s). -/
def rankGE (a b : KnowledgeEntry) : Prop := rankLe b a = true

instance : DecidableRel rankGE := fun a b =>
  inferInstanceAs (Decidable (rankLe b a = true))

/-- `KnowledgeSync.query`: lowercase and (optionally) relatedness-expand the
topic filter, keep the entries passing every filter, sort stably by
`(confidence, updated)` descending, truncate to `limit`. Python's
`list.sort(key=..., reverse=True)` is the stable descending sort by that key;
a stable sort is uniquely determined by the ordering and the input order, and
insertion sort under the non-strict total relation `rankGE` is that stable
sort. -/
def Store.query (s : Store) (search : String) (source category : Option String)
    (topics : List String) (minConfidence : ℚ) (lim : Nat)
    (includeRelated : Bool) (now : Int) : List KnowledgeEntry :=
  let base := (topics.map lowerStr).foldl (fun acc t => insertAbsent t acc) []
  let expanded := if includeRelated && !base.isEmpty then
      base.foldl (fun acc t =>
        (s.graph.getRelated t 1).foldl (fun a r => insertAbsent r a) acc) base
    else base
  let results := (s.entries.map (·.2)).filter
    (queryPasses search source category expanded minConfidence now)
  (List.insertionSort rankGE results).take lim

/-- `KnowledgeSync.query_agent`: sugar for `query(search=topic or "",
source=agent, limit=100)`. -/
def Store.queryAgent (s : Store) (agent : String) (topic : Option String)
    (now : Int) : List KnowledgeEntry :=
  s.query (topic.getD "") (some agent) none [] 0 100 false now

/-- The inner scan of the edge merge in `KnowledgeSync.sync`: does some local
edge have the same ordered `(source, target)` pair as the incoming edge? -/
def edgeKeyMem (es : List GraphEdge) (e : GraphEdge) : Bool :=
  es.any (fun o => o.source == e.source && o.target == e.target)

/-- The edge half of the live-store graph merge in `KnowledgeSync.sync`: each
incoming edge is appended unless an edge with the same ordered
`(source, target)` pair is already present in the growing local list. -/
def mergeEdges (acc incoming : List GraphEdge) : List GraphEdge :=
  incoming.foldl (fun es e => if edgeKeyMem es e then es else es ++ [e]) acc

/-- The node half of both graph merges: an incoming node key absent locally is
appended verbatim (reference count not incremented). -/
def mergeNodes (acc incoming : List (String × NodeMeta)) :
    List (String × NodeMeta) :=
  incoming.foldl (fun ns p =>
    match alookup p.1 ns with
    | none => ns ++ [p]
    | some _ => ns) acc

/-- The per-entry reconciliation loop of `KnowledgeSync.sync`: an unknown id is
added; a strictly newer incoming entry overwrites; an exactly equal `updated`
timestamp counts one conflict with no data change; a strictly older incoming
entry is ignored. -/
def syncEntriesStep (acc : List (String × KnowledgeEntry) × SyncStats)
    (p : String × KnowledgeEntry) : List (String × KnowledgeEntry) × SyncStats :=
  let (es, st) := acc
  match alookup p.1 es with
  | none => (aset p.1 p.2 es, { st with added := st.added + 1 })
  | some ours =>
    if ours.updated < p.2.updated then
      (aset p.1 p.2 es, { st with updated := st.updated + 1 })
    else if p.2.updated = ours.updated then
      (es, { st with conflicts := st.conflicts + 1 })
    else (es, st)

/-- `KnowledgeSync.sync` against another live store: reconcile all entries,
merge the graphs (nodes additively-if-absent; edges additively unless the
ordered pair already exists), and append one sync-log record. -/
def Store.sync (s : Store) (other : Store) (now : Int) : Store × SyncStats :=
  let r := other.entries.foldl syncEntriesStep (s.entries, ⟨0, 0, 0⟩)
  let g : KnowledgeGraph :=
    ⟨mergeNodes s.graph.nodes other.graph.nodes,
     mergeEdges s.graph.edges other.graph.edges⟩
  ({ s with
      entries := r.1
      graph := g
      syncLog := s.syncLog ++ [⟨now, s.agent, other.agent, r.2⟩] }, r.2)

/-- One serialized entry record of a sync export, as consumed by
`KnowledgeEntry.from_dict` (optional fields are the dict keys read with
`data.get(...)` defaults). -/
structure EntryRecord where
  entryId : Option String
  content : String
  source : String
  category : String
  topics : List String
  confidence : ℚ
  created : Option Int
  updated : Option Int
  expires : Option Int
  references : List String
  metadata : List (String × String)
deriving DecidableEq

/-- `KnowledgeEntry.from_dict`: rebuild the entry through the constructor. -/
def entryFromDict (now : Int) (d : EntryRecord) : KnowledgeEntry :=
  mkEntry now d.content d.source d.category d.topics d.confidence d.expires
    d.references d.metadata d.entryId d.created d.updated

/-- The graph document embedded in a sync export. -/
structure GraphData where
  nodes : List (String × NodeMeta)
  edges : List GraphEdge
deriving DecidableEq

/-- A sync export payload (`export_for_sync` output): the serialized entries
plus, optionally, the graph document. -/
structure SyncExport where
  entries : List EntryRecord
  graph : Option GraphData
deriving DecidableEq

/-- The per-entry loop of `KnowledgeSync.import_from_sync`: as in `sync`,
except that an exactly equal `updated` timestamp counts as a conflict only
when the incoming content additionally differs from the local content. -/
def importEntriesStep (now : Int) (acc : List (String × KnowledgeEntry) × SyncStats)
    (d : EntryRecord) : List (String × KnowledgeEntry) × SyncStats :=
  let (es, st) := acc
  let e := entryFromDict now d
  match alookup e.entryId es with
  | none => (aset e.entryId e es, { st with added := st.added + 1 })
  | some ours =>
    if ours.updated < e.updated then
      (aset e.entryId e es, { st with updated := st.updated + 1 })
    else if e.updated = ours.updated ∧ e.content ≠ ours.content then
      (es, { st with conflicts := st.conflicts + 1 })
    else (es, st)

/-- `KnowledgeSync.import_from_sync`: reconcile the exported entries, merge
nodes additively-if-absent, and append every incoming edge unconditionally
(no existence check, unlike `sync`); no sync-log record is written. -/
def Store.importFromSync (s : Store) (data : SyncExport) (now : Int) :
    Store × SyncStats :=
  let r := data.entries.foldl (importEntriesStep now) (s.entries, ⟨0, 0, 0⟩)
  let g : KnowledgeGraph := match data.graph with
    | none => s.graph
    | some gd => ⟨mergeNodes s.graph.nodes gd.nodes, s.graph.edges ++ gd.edges⟩
  ({ s with entries := r.1, graph := g }, r.2)

/-- The topic-node store invariant of the spec: every topic on any live entry
has a graph node (under the normalized key) with reference count at least 1. -/
def StoreInv (s : Store) : Prop :=
  ∀ p ∈ s.entries, ∀ t ∈ p.2.topics, 1 ≤ s.graph.refCount (lowerStr t)

instance (s : Store) : Decidable (StoreInv s) := by
  unfold StoreInv; exact inferInstance

theorem alookup_aset {β : Type} (k k' : String) (v : β) (l : List (String × β)) :
    alookup k' (aset k v l) = if k' = k then some v else alookup k' l := by
  induction l with
  | nil => simp [alookup, aset]
  | cons hd tl ih =>
    obtain ⟨k₀, v₀⟩ := hd
    by_cases hk : k = k₀
    · subst hk
      by_cases h' : k' = k <;> simp [alookup, aset, h']
    · have hk' : ¬k₀ = k := fun hh => hk hh.symm
      by_cases h₁ : k' = k₀
      · subst h₁
        simp [alookup, aset, hk, hk']
      · simp [alookup, aset, hk, h₁, ih]

theorem alookup_append {β : Type} (k : String) (l₁ l₂ : List (String × β)) :
    alookup k (l₁ ++ l₂) =
      match alookup k l₁ with
      | some v => some v
      | none => alookup k l₂ := by
  induction l₁ with
  | nil => simp [alookup]
  | cons hd tl ih =>
    obtain ⟨k₀, v₀⟩ := hd
    by_cases h : k = k₀ <;> simp [alookup, h, ih]

theorem mem_aset {β : Type} {p : String × β} {k : String} {v : β}
    {l : List (String × β)} (h : p ∈ aset k v l) : p = (k, v) ∨ p ∈ l := by
  induction l with
  | nil => simpa [aset] using h
  | cons hd tl ih =>
    obtain ⟨k₀, v₀⟩ := hd
    by_cases hk : k = k₀
    · subst hk
      simp [aset] at h
      rcases h with h | h
      · exact Or.inl h
      · exact Or.inr (List.mem_cons_of_mem _ h)
    · simp [aset, hk] at h
      rcases h with h | h
      · exact Or.inr (by simp [h])
      · rcases ih h with h' | h'
        · exact Or.inl h'
        · exact Or.inr (List.mem_cons_of_mem _ h')

theorem mem_aremove {β : Type} {p : String × β} {k : String}
    {l : List (String × β)} (h : p ∈ aremove k l) : p ∈ l := by
  induction l with
  | nil => simp [aremove] at h
  | cons hd tl ih =>
    obtain ⟨k₀, v₀⟩ := hd
    by_cases hk : k = k₀
    · subst hk
      simp [aremove] at h
      exact List.mem_cons_of_mem _ h
    · simp [aremove, hk] at h
      rcases h with h | h
      · simp [h]
      · exact List.mem_cons_of_mem _ (ih h)

theorem edges_addNode (g : KnowledgeGraph) (u : String) (now : Int) :
    (g.addNode u now).edges = g.edges := by
  simp only [KnowledgeGraph.addNode]
  split <;> rfl

theorem refCount_addNode_eq (g : KnowledgeGraph) (u : String) (now : Int) :
    (g.addNode u now).refCount (lowerStr u) = g.refCount (lowerStr u) + 1 := by
  simp only [KnowledgeGraph.addNode, KnowledgeGraph.refCount]
  cases h : alookup (lowerStr u) g.nodes with
  | none => simp [alookup_append, h, alookup]
  | some m => simp [alookup_aset]

theorem refCount_addNode_ne (g : KnowledgeGraph) (u : String) (now : Int)
    (t : String) (ht : t ≠ lowerStr u) :
    (g.addNode u now).refCount t = g.refCount t := by
  simp only [KnowledgeGraph.addNode, KnowledgeGraph.refCount]
  cases h : alookup (lowerStr u) g.nodes with
  | none =>
    simp only [alookup_append]
    cases h' : alookup t g.nodes <;> simp [h', alookup, ht]
  | some m => simp [alookup_aset, ht]

theorem refCount_addNode_le (g : KnowledgeGraph) (u : String) (now : Int)
    (t : String) : g.refCount t ≤ (g.addNode u now).refCount t := by
  by_cases ht : t = lowerStr u
  · subst ht
    rw [refCount_addNode_eq]
    exact Nat.le_succ _
  · rw [refCount_addNode_ne g u now t ht]

theorem refCount_addNode_self (g : KnowledgeGraph) (u : String) (now : Int) :
    1 ≤ (g.addNode u now).refCount (lowerStr u) := by
  rw [refCount_addNode_eq]
  exact Nat.succ_le_succ (Nat.zero_le _)

theorem nodes_addEdge (g : KnowledgeGraph) (s t rel : String) (w : ℚ) (now : Int) :
    (g.addEdge s t rel w now).nodes =
      ((g.addNode (lowerStr s) now).addNode (lowerStr t) now).nodes := by
  simp only [KnowledgeGraph.addEdge]
  split <;> rfl

theorem refCount_addEdge_le (g : KnowledgeGraph) (s t rel : String) (w : ℚ)
    (now : Int) (u : String) :
    g.refCount u ≤ (g.addEdge s t rel w now).refCount u := by
  have h : (g.addEdge s t rel w now).refCount u =
      ((g.addNode (lowerStr s) now).addNode (lowerStr t) now).refCount u := by
    unfold KnowledgeGraph.refCount
    rw [nodes_addEdge]
  rw [h]
  exact le_trans (refCount_addNode_le g (lowerStr s) now u)
    (refCount_addNode_le _ (lowerStr t) now u)

theorem refCount_foldl_le {α : Type} (f : KnowledgeGraph → α → KnowledgeGraph)
    (hf : ∀ g a t, g.refCount t ≤ (f g a).refCount t) (l : List α)
    (g : KnowledgeGraph) (t : String) :
    g.refCount t ≤ (l.foldl f g).refCount t := by
  induction l generalizing g with
  | nil => simp
  | cons hd tl ih => exact le_trans (hf g hd t) (ih (f g hd))

theorem refCount_foldl_addNode_mem (ts : List String) (now : Int) :
    ∀ (g : KnowledgeGraph), ∀ t ∈ ts,
      1 ≤ (ts.foldl (fun g u => g.addNode u now) g).refCount (lowerStr t) := by
  induction ts with
  | nil =>
    intro g t ht
    cases ht
  | cons hd tl ih =>
    intro g t ht
    rcases List.mem_cons.mp ht with h | h
    · subst h
      simp only [List.foldl_cons]
      exact le_trans (refCount_addNode_self g t now)
        (refCount_foldl_le _ (fun g u v => refCount_addNode_le g u now v) tl _ _)
    · simpa using ih (g.addNode hd now) t h

/-- The ordered endpoint pair of an edge, the key `add_edge`'s scan compares. -/
def edgeKey (e : GraphEdge) : String × String := (e.source, e.target)

theorem updFirst_eq_none {s t rel : String} {w : ℚ} {es : List GraphEdge} :
    updFirst s t rel w es = none ↔ ∀ e ∈ es, ¬(e.source = s ∧ e.target = t) := by
  induction es with
  | nil => simp [updFirst]
  | cons hd tl ih =>
    by_cases h : hd.source = s ∧ hd.target = t
    · simp [updFirst, h]
    · rw [updFirst, if_neg h, Option.map_eq_none', ih]
      constructor
      · intro hall e he
        rcases List.mem_cons.mp he with rfl | he'
        · exact h
        · exact hall e he'
      · intro hall e he
        exact hall e (List.mem_cons_of_mem _ he)

theorem updFirst_eq_some {s t rel : String} {w : ℚ} {es es' : List GraphEdge}
    (h : updFirst s t rel w es = some es') :
    es'.length = es.length ∧ es'.map edgeKey = es.map edgeKey := by
  induction es generalizing es' with
  | nil => simp [updFirst] at h
  | cons hd tl ih =>
    by_cases hm : hd.source = s ∧ hd.target = t
    · rw [updFirst, if_pos hm] at h
      obtain rfl := (Option.some_injective _ h).symm
      simp [edgeKey, hm.1, hm.2]
    · rw [updFirst, if_neg hm] at h
      cases htl : updFirst s t rel w tl with
      | none =>
        rw [htl] at h
        simp at h
      | some es'' =>
        rw [htl] at h
        rw [Option.map_some', Option.some_inj] at h
        subst h
        obtain ⟨h₁, h₂⟩ := ih htl
        simp [h₁, h₂]

theorem updFirst_upd_mem {s t rel : String} {w : ℚ} {es es' : List GraphEdge}
    {e : GraphEdge} (hnd : (es.map edgeKey).Nodup)
    (h : updFirst s t rel w es = some es') (he : e ∈ es)
    (hs : e.source = s) (ht : e.target = t) :
    { e with relation := rel, weight := qmax e.weight w } ∈ es' := by
  induction es generalizing es' with
  | nil => cases he
  | cons hd tl ih =>
    by_cases hm : hd.source = s ∧ hd.target = t
    · rw [updFirst, if_pos hm] at h
      obtain rfl := (Option.some_injective _ h).symm
      rcases List.mem_cons.mp he with rfl | he'
      · exact List.mem_cons_self _ _
      · exfalso
        have : edgeKey e ∈ tl.map edgeKey := List.mem_map_of_mem _ he'
        have hk : edgeKey hd = edgeKey e := by
          simp [edgeKey, hm.1, hm.2, hs, ht]
        rw [← hk] at this
        exact (List.nodup_cons.mp (by simpa using hnd)).1 this
    · rw [updFirst, if_neg hm] at h
      cases htl : updFirst s t rel w tl with
      | none =>
        rw [htl] at h
        simp at h
      | some es'' =>
        rw [htl] at h
        rw [Option.map_some', Option.some_inj] at h
        subst h
        rcases List.mem_cons.mp he with rfl | he'
        · exact absurd ⟨hs, ht⟩ hm
        · exact List.mem_cons_of_mem _
            (ih (List.nodup_cons.mp (by simpa using hnd)).2 htl he')

theorem edges_addEdge (g : KnowledgeGraph) (s t rel : String) (w : ℚ) (now : Int) :
    (g.addEdge s t rel w now).edges =
      match updFirst (lowerStr s) (lowerStr t) rel w g.edges with
      | some es => es
      | none => g.edges ++ [⟨lowerStr s, lowerStr t, rel, w, now⟩] := by
  simp only [KnowledgeGraph.addEdge, edges_addNode]
  split <;> simp_all

theorem edgeKeyMem_iff (es : List GraphEdge) (e : GraphEdge) :
    edgeKeyMem es e = true ↔ edgeKey e ∈ es.map edgeKey := by
  simp [edgeKeyMem, List.any_eq_true, edgeKey, Prod.ext_iff]

theorem mergeEdges_nil (acc : List GraphEdge) : mergeEdges acc [] = acc := rfl

theorem mergeEdges_cons (acc : List GraphEdge) (hd : GraphEdge)
    (tl : List GraphEdge) :
    mergeEdges acc (hd :: tl) =
      mergeEdges (if edgeKeyMem acc hd then acc else acc ++ [hd]) tl := rfl

theorem mergeEdges_append (acc incoming : List GraphEdge) :
    ∃ tl, mergeEdges acc incoming = acc ++ tl ∧ ∀ e ∈ tl, e ∈ incoming := by
  induction incoming generalizing acc with
  | nil => exact ⟨[], by simp [mergeEdges_nil]⟩
  | cons hd tl ih =>
    rw [mergeEdges_cons]
    cases h : edgeKeyMem acc hd with
    | true =>
      rw [if_pos (by simp [h])]
      obtain ⟨t₀, h₁, h₂⟩ := ih acc
      exact ⟨t₀, h₁, fun e he => List.mem_cons_of_mem _ (h₂ e he)⟩
    | false =>
      rw [if_neg (by simp [h])]
      obtain ⟨t₀, h₁, h₂⟩ := ih (acc ++ [hd])
      refine ⟨hd :: t₀, ?_, ?_⟩
      · rw [h₁, List.append_assoc]
        rfl
      · intro e he
        rcases List.mem_cons.mp he with rfl | he'
        · exact List.mem_cons_self _ _
        · exact List.mem_cons_of_mem _ (h₂ e he')

theorem mergeEdges_key_iff (acc incoming : List GraphEdge) (p : String × String) :
    p ∈ (mergeEdges acc incoming).map edgeKey ↔
      p ∈ acc.map edgeKey ∨ p ∈ incoming.map edgeKey := by
  induction incoming generalizing acc with
  | nil => simp [mergeEdges_nil]
  | cons hd tl ih =>
    rw [mergeEdges_cons]
    cases h : edgeKeyMem acc hd with
    | true =>
      rw [if_pos (by simp [h]), ih]
      have hk : edgeKey hd ∈ acc.map edgeKey := (edgeKeyMem_iff acc hd).mp h
      simp only [List.map_cons, List.mem_cons]
      constructor
      · rintro (h' | h')
        · exact Or.inl h'
        · exact Or.inr (Or.inr h')
      · rintro (h' | rfl | h')
        · exact Or.inl h'
        · exact Or.inl hk
        · exact Or.inr h'
    | false =>
      rw [if_neg (by simp [h]), ih]
      simp only [List.map_append, List.map_cons, List.map_nil, List.mem_append,
        List.mem_cons, List.mem_singleton]
      tauto

theorem mergeEdges_nodup (acc incoming : List GraphEdge)
    (h : (acc.map edgeKey).Nodup) :
    ((mergeEdges acc incoming).map edgeKey).Nodup := by
  induction incoming generalizing acc with
  | nil => simpa [mergeEdges_nil]
  | cons hd tl ih =>
    rw [mergeEdges_cons]
    cases hh : edgeKeyMem acc hd with
    | true =>
      rw [if_pos (by simp [hh])]
      exact ih acc h
    | false =>
      rw [if_neg (by simp [hh])]
      refine ih (acc ++ [hd]) ?_
      have hk : edgeKey hd ∉ acc.map edgeKey := by
        intro hmem
        rw [← edgeKeyMem_iff acc hd] at hmem
        rw [hh] at hmem
        cases hmem
      rw [List.map_append, List.map_cons, List.map_nil]
      refine List.Nodup.append h (List.nodup_singleton _) ?_
      intro x hx hx'
      rw [List.mem_singleton] at hx'
      subst hx'
      exact hk hx


theorem refCount_addTopicsGraph_le (g : KnowledgeGraph) (ts : List String)
    (now : Int) (t : String) :
    g.refCount t ≤ (addTopicsGraph g ts now).refCount t := by
  unfold addTopicsGraph
  exact le_trans
    (refCount_foldl_le _ (fun g a u => refCount_addNode_le g a now u) ts g t)
    (refCount_foldl_le _
      (fun g p u => refCount_addEdge_le g p.1 p.2 "co-occurs" 1 now u) _ _ t)

theorem refCount_addTopicsGraph_mem (g : KnowledgeGraph) (ts : List String)
    (now : Int) (t : String) (ht : t ∈ ts) :
    1 ≤ (addTopicsGraph g ts now).refCount (lowerStr t) := by
  unfold addTopicsGraph
  exact le_trans (refCount_foldl_addNode_mem ts now g t ht)
    (refCount_foldl_le _
      (fun g p u => refCount_addEdge_le g p.1 p.2 "co-occurs" 1 now u) _ _ _)

instance {ε α : Type} [DecidableEq ε] [DecidableEq α] :
    DecidableEq (Except ε α) := fun a b =>
  match a, b with
  | .error x, .error y =>
    if h : x = y then .isTrue (by subst h; rfl)
    else .isFalse (fun hh => h (by cases hh; rfl))
  | .error _, .ok _ => .isFalse (fun hh => by cases hh)
  | .ok _, .error _ => .isFalse (fun hh => by cases hh)
  | .ok x, .ok y =>
    if h : x = y then .isTrue (by subst h; rfl)
    else .isFalse (fun hh => h (by cases hh; rfl))

/-- A small concrete entry used by witnesses: content "x", agent TEST, no
topics, confidence 1, no expiry, created = updated = 0. -/
def sampleEntry : KnowledgeEntry :=
  mkEntry 0 "x" "TEST" "FACT" [] 1 none [] [] none none none

/-- A small concrete store holding `sampleEntry` under key "x". -/
def sampleStore : Store :=
  ⟨"TEST", [("x", sampleEntry)], KnowledgeGraph.empty, []⟩

/-- A concrete edge used by witnesses. -/
def sampleEdge : GraphEdge := ⟨"a", "b", "related_to", 1, 0⟩

/-- A concrete one-edge graph used by witnesses. -/
def sampleEdgeGraph : KnowledgeGraph :=
  KnowledgeGraph.empty.addEdge "a" "b" "related_to" 1 0

/-- A concrete store whose graph already holds `sampleEdge`. -/
def sampleEdgeStore : Store := ⟨"TEST", [], sampleEdgeGraph, []⟩


/-- C8 counterexample: an entry whose `expires` equals the evaluation instant
exactly is NOT expired under `is_expired` (the code tests the strict
`datetime.now() > self.expires`), contradicting the claim that exact equality
means expired. -/
theorem isExpired_at_exact_instant :
    (mkEntry 0 "x" "A" "FACT" [] 1 (some 5) [] [] none none none).isExpired 5
      = false := by decide

/-- C8 (amended): `isExpired` returns false iff `expires` is unset or the
expiry timestamp is at or after the evaluation instant — an entry whose
`expires` equals the instant exactly is still NOT expired (the code compares
strictly). -/
theorem isExpired_false_iff (e : KnowledgeEntry) (now : Int) :
    e.isExpired now = false ↔
      e.expires = none ∨ ∃ t, e.expires = some t ∧ now ≤ t := by
  cases h : e.expires with
  | none => simp [KnowledgeEntry.isExpired, h]
  | some t => simp [KnowledgeEntry.isExpired, h, not_lt]

/-- C9: `update` with a content argument and a known id unconditionally
replaces the stored content by the trimmed supplied string — no non-emptiness
validation is performed, so a whitespace-only argument stores the empty
string, breaking the construction-time non-empty-content invariant. -/
theorem update_content_no_validation (s : Store) (id c : String)
    (oe : KnowledgeEntry) (now : Int) (h : alookup id s.entries = some oe) :
    ∃ st e', s.update id (some c) none none none none now = some (st, e') ∧
      e'.content = trimStr c ∧ alookup id st.entries = some e' := by
  simp only [Store.update, h]
  refine ⟨_, _, rfl, rfl, ?_⟩
  rw [alookup_aset]
  simp

/-- C9 witness: updating the sample store's entry "x" with whitespace-only
content succeeds and stores the empty string. -/
theorem update_content_no_validation_witness :
    alookup "x" sampleStore.entries = some sampleEntry ∧
    (∃ st e', sampleStore.update "x" (some "   ") none none none none 7
        = some (st, e') ∧
      e'.content = trimStr "   " ∧ alookup "x" st.entries = some e') :=
  ⟨by decide,
   update_content_no_validation sampleStore "x" "   " sampleEntry 7 (by decide)⟩

/-- C10: calling `add` with `expires_in_days = 0` is literally the same
computation as omitting the argument (`if expires_in_days:` treats 0 as
falsy), and the entry produced by a successful such call carries no expiry. -/
theorem add_zero_expiry (s : Store) (content category : String)
    (topics : List String) (confidence : ℚ) (references : List String)
    (metadata : List (String × String)) (now : Int) (st : Store)
    (e : KnowledgeEntry) :
    (s.add content category topics confidence (some 0) references metadata now
      = s.add content category topics confidence none references metadata now) ∧
    (s.add content category topics confidence (some 0) references metadata now
        = .ok (st, e) → e.expires = none) := by
  refine ⟨rfl, ?_⟩
  intro h
  rw [Store.add.eq_def] at h
  split at h
  · cases h
  · simp only [Except.ok.injEq, Prod.mk.injEq] at h
    obtain ⟨-, he⟩ := h
    subst he
    rfl

/-- C10 witness: adding to the sample store with `expires_in_days = 0` equals
the omitted-argument call, and the produced entry has no expiry. -/
theorem add_zero_expiry_witness :
    (sampleStore.add "y" "FACT" [] 1 (some 0) [] [] 0
      = sampleStore.add "y" "FACT" [] 1 none [] [] 0) ∧
    (mkEntry 0 "y" "TEST" "FACT" [] 1 none [] [] none none none).expires
      = none :=
  ⟨(add_zero_expiry sampleStore "y" "FACT" [] 1 [] [] 0 sampleStore
      sampleEntry).1,
   (add_zero_expiry sampleStore "y" "FACT" [] 1 [] [] 0
      ({ sampleStore with
          entries := aset "y:TEST:0"
            (mkEntry 0 "y" "TEST" "FACT" [] 1 none [] [] none none none)
            sampleStore.entries })
      (mkEntry 0 "y" "TEST" "FACT" [] 1 none [] [] none none none)).2
     (by decide)⟩

/-- C5 counterexample: `KnowledgeEntry.__init__` performs no content
validation — constructing an entry with empty content succeeds (the entry
exists and stores the empty string), contradicting the claim that entry
construction fails on empty or whitespace-only content. Only the store-level
`add` validates. -/
theorem entry_construction_accepts_empty :
    (mkEntry 0 "" "ATLAS" "FACT" [] 1 none [] [] none none none).content
      = "" := rfl

/-- C5 (amended): the store's `add` fails with the `ValueError` message
"Content cannot be empty" exactly when the supplied content is empty or
whitespace-only — the error is returned synchronously to the caller (an
`Except.error`, never swallowed) and no entry is stored — and on non-blank
content it succeeds and stores the trimmed entry; `KnowledgeEntry`
construction itself performs no such validation (see the counterexample). -/
theorem add_content_validation (s : Store) (content category : String)
    (topics : List String) (confidence : ℚ) (expiresInDays : Option Int)
    (references : List String) (metadata : List (String × String))
    (now : Int) :
    (trimStr content = "" →
      s.add content category topics confidence expiresInDays references
          metadata now = .error "Content cannot be empty") ∧
    (trimStr content ≠ "" →
      ∃ st e, s.add content category topics confidence expiresInDays
          references metadata now = .ok (st, e) ∧
        alookup e.entryId st.entries = some e ∧
        e.content = trimStr content) := by
  constructor
  · intro h
    rw [Store.add.eq_def, if_pos h]
  · intro h
    rw [Store.add.eq_def, if_neg h]
    refine ⟨_, _, rfl, ?_, rfl⟩
    rw [alookup_aset]
    simp

/-- C5 witness: on the sample store, whitespace-only content is rejected with
the validation error, and the content "hi" is accepted and stored. -/
theorem add_content_validation_witness :
    (trimStr "  " = "" ∧
      sampleStore.add "  " "FACT" [] 1 none [] [] 0
        = .error "Content cannot be empty") ∧
    (trimStr "hi" ≠ "" ∧
      ∃ st e, sampleStore.add "hi" "FACT" [] 1 none [] [] 0 = .ok (st, e) ∧
        alookup e.entryId st.entries = some e ∧ e.content = trimStr "hi") :=
  ⟨⟨by decide,
    (add_content_validation sampleStore "  " "FACT" [] 1 none [] [] 0).1
      (by decide)⟩,
   ⟨by decide,
    (add_content_validation sampleStore "hi" "FACT" [] 1 none [] [] 0).2
      (by decide)⟩⟩

/-- C7 counterexample: `update` with the unrecognized category "bogus" does
not coerce to FACT — it stores the uppercased "BOGUS", which is outside the
closed category set, contradicting the claim that the coercion also applies
via update. -/
theorem update_category_escapes_closed_set :
    ((sampleStore.update "x" none (some "bogus") none none none 1).map
      (fun p => (p.2.category, decide (alookup "x" p.1.entries = some p.2))))
        = some ("BOGUS", true) ∧
    CATEGORIES.contains "BOGUS" = false := by
  constructor <;> decide

/-- C7 (amended): the silent coercion of unrecognized category strings to the
default FACT happens at entry construction only (every constructed entry's
category lies in the closed set), while `update` merely uppercases the
supplied category with no membership check, so updated entries can carry a
category outside the closed set. -/
theorem category_closed_constructor_only (now : Int)
    (content source category : String) (topics : List String)
    (confidence : ℚ) (expires : Option Int) (references : List String)
    (metadata : List (String × String)) (entryId : Option String)
    (created updatedArg : Option Int) (s : Store) (id c : String)
    (now' : Int) (st : Store) (e' : KnowledgeEntry) :
    (mkEntry now content source category topics confidence expires references
        metadata entryId created updatedArg).category ∈ CATEGORIES ∧
    (s.update id none (some c) none none none now' = some (st, e') →
      e'.category = upperStr c) := by
  constructor
  · simp only [mkEntry]
    split
    · next h => simpa using h
    · decide
  · intro h
    cases hl : alookup id s.entries with
    | none => rw [Store.update, hl] at h; cases h
    | some e0 =>
      rw [Store.update, hl] at h
      simp only [Option.some_inj, Prod.mk.injEq] at h
      obtain ⟨-, he⟩ := h
      subst he
      rfl

/-- C7 witness: a freshly constructed entry with category "weird" lands in the
closed set (as FACT), and updating the sample store's entry with category
"bogus" stores the out-of-set "BOGUS". -/
theorem category_closed_constructor_only_witness :
    (mkEntry 0 "x" "TEST" "weird" [] 1 none [] [] none none none).category
        ∈ CATEGORIES ∧
    ({ sampleEntry with category := "BOGUS", updated := 1 }).category
        = upperStr "bogus" :=
  ⟨(category_closed_constructor_only 0 "x" "TEST" "weird" [] 1 none [] []
      none none none sampleStore "x" "bogus" 1 sampleStore sampleEntry).1,
   (category_closed_constructor_only 0 "x" "TEST" "weird" [] 1 none [] []
      none none none sampleStore "x" "bogus" 1
      ({ sampleStore with
          entries := aset "x"
            ({ sampleEntry with category := "BOGUS", updated := 1 })
            sampleStore.entries })
      ({ sampleEntry with category := "BOGUS", updated := 1 })).2
     (by decide)⟩

/-- A concrete serialized entry record used by witnesses: explicit id "x",
content "z", `created = updated = 0`. -/
def sampleRecord : EntryRecord :=
  ⟨some "x", "z", "TEST", "FACT", [], 1, some 0, some 0, none, [], []⟩

/-- C2: for an incoming entry whose id is present locally with an exactly
equal `updated` timestamp, the live-store `sync` counts one conflict
regardless of content and keeps the local entry map unchanged, while
`import_from_sync` also keeps the map unchanged but counts the conflict only
when the incoming content differs from the local content. -/
theorem merge_equal_timestamp_conflict (s : Store) (ag id : String)
    (e oe : KnowledgeEntry) (now : Int) (d : EntryRecord)
    (oe' : KnowledgeEntry)
    (hfound : alookup id s.entries = some oe) (heq : e.updated = oe.updated)
    (hfound' : alookup (entryFromDict now d).entryId s.entries = some oe')
    (heq' : (entryFromDict now d).updated = oe'.updated) :
    ((s.sync ⟨ag, [(id, e)], KnowledgeGraph.empty, []⟩ now).2 = ⟨0, 0, 1⟩ ∧
     (s.sync ⟨ag, [(id, e)], KnowledgeGraph.empty, []⟩ now).1.entries
       = s.entries) ∧
    ((s.importFromSync ⟨[d], none⟩ now).1.entries = s.entries ∧
     (s.importFromSync ⟨[d], none⟩ now).2 =
       (if (entryFromDict now d).content = oe'.content then ⟨0, 0, 0⟩
        else ⟨0, 0, 1⟩)) := by
  have hstep :
      [(id, e)].foldl syncEntriesStep (s.entries, (⟨0, 0, 0⟩ : SyncStats))
        = (s.entries, ⟨0, 0, 1⟩) := by
    simp only [List.foldl_cons, List.foldl_nil, syncEntriesStep, hfound]
    rw [heq]
    simp
  have hstep' :
      [d].foldl (importEntriesStep now) (s.entries, (⟨0, 0, 0⟩ : SyncStats))
        = (s.entries,
           if (entryFromDict now d).content = oe'.content then ⟨0, 0, 0⟩
           else ⟨0, 0, 1⟩) := by
    simp only [List.foldl_cons, List.foldl_nil, importEntriesStep, hfound']
    rw [heq']
    by_cases hc : (entryFromDict now d).content = oe'.content
    · simp [hc]
    · simp [hc]
  refine ⟨⟨?_, ?_⟩, ?_, ?_⟩
  · simp only [Store.sync]
    rw [hstep]
  · simp only [Store.sync]
    rw [hstep]
  · simp only [Store.importFromSync]
    rw [hstep']
  · simp only [Store.importFromSync]
    rw [hstep']

/-- C2 witness: syncing one incoming entry with equal timestamp but different
content into the sample store yields exactly one conflict in both merge
forms, with the local entries untouched. -/
theorem merge_equal_timestamp_conflict_witness :
    (alookup "x" sampleStore.entries = some sampleEntry ∧
     ({ sampleEntry with content := "z" }).updated = sampleEntry.updated ∧
     alookup (entryFromDict 0 sampleRecord).entryId sampleStore.entries
       = some sampleEntry ∧
     (entryFromDict 0 sampleRecord).updated = sampleEntry.updated) ∧
    (((sampleStore.sync
        ⟨"OTHER", [("x", { sampleEntry with content := "z" })],
         KnowledgeGraph.empty, []⟩ 0).2 = ⟨0, 0, 1⟩ ∧
      (sampleStore.sync
        ⟨"OTHER", [("x", { sampleEntry with content := "z" })],
         KnowledgeGraph.empty, []⟩ 0).1.entries = sampleStore.entries) ∧
     ((sampleStore.importFromSync ⟨[sampleRecord], none⟩ 0).1.entries
        = sampleStore.entries ∧
      (sampleStore.importFromSync ⟨[sampleRecord], none⟩ 0).2 =
        (if (entryFromDict 0 sampleRecord).content = sampleEntry.content
         then ⟨0, 0, 0⟩ else ⟨0, 0, 1⟩))) :=
  ⟨⟨by decide, by decide, by decide, by decide⟩,
   merge_equal_timestamp_conflict sampleStore "OTHER" "x"
     { sampleEntry with content := "z" } sampleEntry 0 sampleRecord
     sampleEntry (by decide) (by decide) (by decide) (by decide)⟩

/-- The entry created by the C3 witness's `add` call. -/
def sampleEntryY : KnowledgeEntry :=
  mkEntry 0 "y" "TEST" "FACT" ["a"] 1 none [] [] none none none

/-- The store produced by the C3 witness's `add` call. -/
def sampleAddedStore : Store :=
  { sampleStore with
      entries := aset "y:TEST:0" sampleEntryY sampleStore.entries
      graph := addTopicsGraph sampleStore.graph sampleEntryY.topics 0 }

/-- C3 counterexample: the topic-node invariant holds of the sample store, yet
a single `update` that rewrites the entry's topics to ["b"] leaves the graph
untouched, so the live entry's topic "b" has no graph node afterwards —
`update` does not preserve the claimed invariant. -/
theorem update_breaks_topic_invariant :
    StoreInv sampleStore ∧
    (sampleStore.update "x" none none (some ["b"]) none none 1).map
      (fun p => decide (StoreInv p.1)) = some false := by
  constructor <;> decide

/-- C3 (amended): the topic-node invariant — every topic on any live entry has
a graph node (under the normalized key) with reference count at least 1 — is
preserved by `add`, `delete` and `cleanup_expired`; it is NOT maintained by
`update` (see the counterexample), which rewrites an entry's topics without
touching the graph, nor in general by the merge forms, which copy incoming
graph node metadata verbatim. -/
theorem topic_invariant_preserved (s : Store) (content category : String)
    (topics : List String) (confidence : ℚ) (expiresInDays : Option Int)
    (references : List String) (metadata : List (String × String))
    (now : Int) (st : Store) (e : KnowledgeEntry) (id : String)
    (hinv : StoreInv s) :
    (s.add content category topics confidence expiresInDays references
        metadata now = .ok (st, e) → StoreInv st) ∧
    StoreInv (s.delete id).1 ∧
    StoreInv (s.cleanupExpired now).1 := by
  refine ⟨?_, ?_, ?_⟩
  · intro h
    rw [Store.add.eq_def] at h
    split at h
    · cases h
    · simp only [Except.ok.injEq, Prod.mk.injEq] at h
      obtain ⟨hst, he⟩ := h
      subst he
      subst hst
      intro p hp t ht
      rcases mem_aset hp with rfl | hps
      · exact refCount_addTopicsGraph_mem _ _ _ t ht
      · exact le_trans (hinv p hps t ht)
          (refCount_addTopicsGraph_le s.graph _ now (lowerStr t))
  · intro p hp t ht
    have hg : (s.delete id).1.graph = s.graph := by
      cases hl : alookup id s.entries <;> simp [Store.delete, hl]
    have hp' : p ∈ s.entries := by
      cases hl : alookup id s.entries with
      | none => simpa [Store.delete, hl] using hp
      | some e0 => exact mem_aremove (by simpa [Store.delete, hl] using hp)
    rw [hg]
    exact hinv p hp' t ht
  · intro p hp t ht
    exact hinv p (List.mem_of_mem_filter hp) t ht

/-- C3 witness: on the sample store (where the invariant holds), it still
holds after an `add` with a fresh topic, after `delete`, and after
`cleanup_expired`. -/
theorem topic_invariant_preserved_witness :
    StoreInv sampleStore ∧
    StoreInv sampleAddedStore ∧
    StoreInv (sampleStore.delete "x").1 ∧
    StoreInv (sampleStore.cleanupExpired 9).1 :=
  ⟨by decide,
   (topic_invariant_preserved sampleStore "y" "FACT" ["a"] 1 none [] [] 0
      sampleAddedStore sampleEntryY "x" (by decide)).1 (by decide),
   (topic_invariant_preserved sampleStore "y" "FACT" ["a"] 1 none [] [] 0
      sampleAddedStore sampleEntryY "x" (by decide)).2.1,
   (topic_invariant_preserved sampleStore "y" "FACT" ["a"] 1 none [] [] 9
      sampleAddedStore sampleEntryY "x" (by decide)).2.2⟩

/-- C1 counterexample: `add_edge` matches existing edges by the ORDERED
`(source, target)` pair, so adding the same unordered pair {a, b} in the
opposite orientation appends a second edge instead of updating the existing
one — the graph ends with two edges over the same unordered endpoint pair. -/
theorem addEdge_reverse_orientation_duplicate :
    ((sampleEdgeGraph.addEdge "b" "a" "related_to" 1 0).edges.map
      (fun e => (e.source, e.target))) = [("a", "b"), ("b", "a")] := by decide

/-- C1 (amended): at most one edge exists per ORDERED `(source, target)` pair:
on a graph whose edges carry pairwise-distinct ordered pairs, `add_edge`
preserves that distinctness; when an edge with the same ordered pair already
exists it is updated in place (relation replaced by the newest value, weight
by `max(existing, new)`) and no edge is appended; when no such edge exists
the new edge is appended. The reverse orientation counts as a different pair
and does create a second edge (see the counterexample). -/
theorem addEdge_ordered_pair_semantics (g : KnowledgeGraph) (s t rel : String)
    (w : ℚ) (now : Int) (e : GraphEdge)
    (hnd : (g.edges.map edgeKey).Nodup) :
    ((g.addEdge s t rel w now).edges.map edgeKey).Nodup ∧
    (e ∈ g.edges → e.source = lowerStr s → e.target = lowerStr t →
      ((g.addEdge s t rel w now).edges.length = g.edges.length ∧
       { e with relation := rel, weight := qmax e.weight w }
         ∈ (g.addEdge s t rel w now).edges)) ∧
    ((lowerStr s, lowerStr t) ∉ g.edges.map edgeKey →
      (g.addEdge s t rel w now).edges
        = g.edges ++ [⟨lowerStr s, lowerStr t, rel, w, now⟩]) := by
  cases hu : updFirst (lowerStr s) (lowerStr t) rel w g.edges with
  | some es' =>
    have he2 : (g.addEdge s t rel w now).edges = es' := by
      rw [edges_addEdge, hu]
    obtain ⟨hlen, hmap⟩ := updFirst_eq_some hu
    refine ⟨?_, ?_, ?_⟩
    · rw [he2, hmap]
      exact hnd
    · intro hee hs ht
      exact ⟨by rw [he2]; exact hlen, by
        rw [he2]; exact updFirst_upd_mem hnd hu hee hs ht⟩
    · intro hnot
      exfalso
      have hne : updFirst (lowerStr s) (lowerStr t) rel w g.edges ≠ none := by
        simp [hu]
      rw [Ne, updFirst_eq_none] at hne
      push_neg at hne
      obtain ⟨e₀, he₀, hse, hte⟩ := hne
      apply hnot
      have hk : edgeKey e₀ = (lowerStr s, lowerStr t) := by
        simp [edgeKey, hse, hte]
      rw [← hk]
      exact List.mem_map_of_mem _ he₀
  | none =>
    have he2 : (g.addEdge s t rel w now).edges
        = g.edges ++ [⟨lowerStr s, lowerStr t, rel, w, now⟩] := by
      rw [edges_addEdge, hu]
    have hall := updFirst_eq_none.mp hu
    refine ⟨?_, ?_, ?_⟩
    · rw [he2, List.map_append, List.map_cons, List.map_nil]
      refine List.Nodup.append hnd (List.nodup_singleton _) ?_
      intro x hx hx'
      rw [List.mem_singleton] at hx'
      subst hx'
      obtain ⟨e₀, he₀, hk⟩ := List.mem_map.mp hx
      have hpair : e₀.source = lowerStr s ∧ e₀.target = lowerStr t := by
        simpa [edgeKey, Prod.ext_iff] using hk
      exact hall e₀ he₀ hpair
    · intro hee hs ht
      exact absurd ⟨hs, ht⟩ (hall e hee)
    · intro _
      exact he2

/-- C1 witness: on the sample one-edge graph (distinct ordered pairs), adding
the same ordered pair again keeps uniqueness, keeps the edge count, and
updates the edge's relation and weight in place. -/
theorem addEdge_ordered_pair_semantics_witness :
    (sampleEdgeGraph.edges.map edgeKey).Nodup ∧
    ((sampleEdgeGraph.addEdge "a" "b" "seen_with" 2 1).edges.map
        edgeKey).Nodup ∧
    ((sampleEdgeGraph.addEdge "a" "b" "seen_with" 2 1).edges.length
        = sampleEdgeGraph.edges.length ∧
      { sampleEdge with
          relation := "seen_with", weight := qmax sampleEdge.weight 2 }
        ∈ (sampleEdgeGraph.addEdge "a" "b" "seen_with" 2 1).edges) :=
  ⟨by decide,
   (addEdge_ordered_pair_semantics sampleEdgeGraph "a" "b" "seen_with" 2 1
      sampleEdge (by decide)).1,
   (addEdge_ordered_pair_semantics sampleEdgeGraph "a" "b" "seen_with" 2 1
      sampleEdge (by decide)).2.1 (by decide) (by decide) (by decide)⟩

/-- A concrete peer store used by the C4 witness, holding the reverse edge. -/
def otherEdgeStore : Store :=
  ⟨"OTHER", [], ⟨[], [⟨"b", "a", "related_to", 1, 0⟩]⟩, []⟩

/-- C4 counterexample: `import_from_sync` appends every incoming edge
unconditionally — an incoming edge whose endpoint pair (even in the same
orientation) already exists locally is appended anyway, so after the import
the same edge appears twice, contradicting the claimed append-iff-absent
behaviour for the import merge. -/
theorem import_appends_duplicate_edge :
    (sampleEdgeStore.importFromSync ⟨[], some ⟨[], [sampleEdge]⟩⟩
      0).1.graph.edges = [sampleEdge, sampleEdge] := by decide

/-- C4 (amended): during live-store `sync`, local edges are preserved as a
prefix (never modified), every appended edge comes verbatim from the incoming
store, the merged ordered-pair set is exactly the union of the two sides (an
incoming edge is appended iff no edge with the same ORDERED pair is already
present among the local and previously appended edges — the check is ordered,
not unordered), and ordered-pair distinctness of the local edges is
preserved; `import_from_sync`, by contrast, appends every incoming edge
unconditionally. -/
theorem merge_edge_semantics (s other : Store) (now : Int)
    (ds : List EntryRecord) (gd : GraphData) (e : GraphEdge)
    (p : String × String) :
    (s.sync other now).1.graph.edges.take s.graph.edges.length
      = s.graph.edges ∧
    (e ∈ (s.sync other now).1.graph.edges →
      e ∈ s.graph.edges ∨ e ∈ other.graph.edges) ∧
    (p ∈ (s.sync other now).1.graph.edges.map edgeKey ↔
      p ∈ s.graph.edges.map edgeKey ∨ p ∈ other.graph.edges.map edgeKey) ∧
    ((s.graph.edges.map edgeKey).Nodup →
      ((s.sync other now).1.graph.edges.map edgeKey).Nodup) ∧
    (s.importFromSync ⟨ds, some gd⟩ now).1.graph.edges
      = s.graph.edges ++ gd.edges := by
  have hs : (s.sync other now).1.graph.edges
      = mergeEdges s.graph.edges other.graph.edges := rfl
  obtain ⟨tl, htl, hsub⟩ := mergeEdges_append s.graph.edges other.graph.edges
  refine ⟨?_, ?_, ?_, ?_, ?_⟩
  · rw [hs, htl, List.take_left]
  · intro he
    rw [hs, htl] at he
    rcases List.mem_append.mp he with h | h
    · exact Or.inl h
    · exact Or.inr (hsub e h)
  · rw [hs]
    exact mergeEdges_key_iff _ _ p
  · intro hnd
    rw [hs]
    exact mergeEdges_nodup _ _ hnd
  · rfl

/-- C4 witness: syncing the reverse-edge peer into the sample edge store keeps
the local edge as prefix, the incoming reverse edge is appended verbatim
(its ordered pair was absent), the merged pair set is the union, uniqueness
is preserved, and an import of the same-pair edge appends it verbatim. -/
theorem merge_edge_semantics_witness :
    ((sampleEdgeStore.sync otherEdgeStore 0).1.graph.edges.take
        sampleEdgeStore.graph.edges.length = sampleEdgeStore.graph.edges) ∧
    (⟨"b", "a", "related_to", 1, 0⟩ ∈ sampleEdgeStore.graph.edges ∨
      (⟨"b", "a", "related_to", 1, 0⟩ : GraphEdge)
        ∈ otherEdgeStore.graph.edges) ∧
    (("b", "a") ∈ (sampleEdgeStore.sync otherEdgeStore 0).1.graph.edges.map
        edgeKey ↔
      ("b", "a") ∈ sampleEdgeStore.graph.edges.map edgeKey ∨
      ("b", "a") ∈ otherEdgeStore.graph.edges.map edgeKey) ∧
    (((sampleEdgeStore.sync otherEdgeStore 0).1.graph.edges.map
        edgeKey).Nodup) ∧
    ((sampleEdgeStore.importFromSync ⟨[], some ⟨[], [sampleEdge]⟩⟩
        0).1.graph.edges = sampleEdgeStore.graph.edges ++ [sampleEdge]) :=
  ⟨(merge_edge_semantics sampleEdgeStore otherEdgeStore 0 []
      ⟨[], [sampleEdge]⟩ ⟨"b", "a", "related_to", 1, 0⟩ ("b", "a")).1,
   (merge_edge_semantics sampleEdgeStore otherEdgeStore 0 []
      ⟨[], [sampleEdge]⟩ ⟨"b", "a", "related_to", 1, 0⟩ ("b", "a")).2.1
     (by decide),
   (merge_edge_semantics sampleEdgeStore otherEdgeStore 0 []
      ⟨[], [sampleEdge]⟩ ⟨"b", "a", "related_to", 1, 0⟩ ("b", "a")).2.2.1,
   (merge_edge_semantics sampleEdgeStore otherEdgeStore 0 []
      ⟨[], [sampleEdge]⟩ ⟨"b", "a", "related_to", 1, 0⟩ ("b", "a")).2.2.2.1
     (by decide),
   (merge_edge_semantics sampleEdgeStore otherEdgeStore 0 []
      ⟨[], [sampleEdge]⟩ ⟨"b", "a", "related_to", 1, 0⟩ ("b", "a")).2.2.2.2⟩

theorem rankLe_iff (a b : KnowledgeEntry) :
    rankLe a b = true ↔
      a.confidence < b.confidence ∨
        (a.confidence = b.confidence ∧ a.updated ≤ b.updated) := by
  simp [rankLe]

theorem rankLe_trans {a b c : KnowledgeEntry} (h₁ : rankLe a b = true)
    (h₂ : rankLe b c = true) : rankLe a c = true := by
  rw [rankLe_iff] at h₁ h₂ ⊢
  rcases h₁ with h₁ | ⟨h₁, h₁'⟩ <;> rcases h₂ with h₂ | ⟨h₂, h₂'⟩
  · exact Or.inl (lt_trans h₁ h₂)
  · exact Or.inl (lt_of_lt_of_eq h₁ h₂)
  · exact Or.inl (lt_of_eq_of_lt h₁ h₂)
  · exact Or.inr ⟨h₁.trans h₂, le_trans h₁' h₂'⟩

theorem rankLe_total (a b : KnowledgeEntry) :
    rankLe a b = true ∨ rankLe b a = true := by
  rw [rankLe_iff, rankLe_iff]
  rcases lt_trichotomy a.confidence b.confidence with h | h | h
  · exact Or.inl (Or.inl h)
  · rcases le_total a.updated b.updated with h' | h'
    · exact Or.inl (Or.inr ⟨h, h'⟩)
    · exact Or.inr (Or.inr ⟨h.symm, h'⟩)
  · exact Or.inr (Or.inl h)

instance : IsTotal KnowledgeEntry rankGE := ⟨fun a b => rankLe_total b a⟩

instance : IsTrans KnowledgeEntry rankGE :=
  ⟨fun _ _ _ h₁ h₂ => rankLe_trans h₂ h₁⟩

/-- C6: for every store state and argument combination, the query result
contains no entry expired at the evaluation instant, is sorted (pairwise) by
the composite key `(confidence, updated)` with both components descending —
`rankGE a b` says `a`'s key is at least `b`'s — and has length at most
`limit`. -/
theorem query_expired_sorted_bounded (s : Store) (search : String)
    (source category : Option String) (topics : List String)
    (minConfidence : ℚ) (lim : Nat) (includeRelated : Bool) (now : Int)
    (e : KnowledgeEntry) :
    (e ∈ s.query search source category topics minConfidence lim
        includeRelated now → e.isExpired now = false) ∧
    (s.query search source category topics minConfidence lim includeRelated
        now).Pairwise rankGE ∧
    (s.query search source category topics minConfidence lim includeRelated
        now).length ≤ lim := by
  refine ⟨?_, ?_, ?_⟩
  · intro he
    simp only [Store.query] at he
    have h₁ := List.mem_of_mem_take he
    have h₂ := (List.perm_insertionSort rankGE _).mem_iff.mp h₁
    have h₃ := (List.mem_filter.mp h₂).2
    simp only [queryPasses, Bool.and_eq_true, Bool.not_eq_true'] at h₃
    exact h₃.1.1.1.1.1
  · simp only [Store.query]
    exact List.Pairwise.sublist (List.take_sublist _ _)
      (List.sorted_insertionSort rankGE _)
  · simp only [Store.query]
    simp [List.length_take]

/-- C6 witness: the sample store's unfiltered query at instant 5 returns the
sample entry (unexpired), is pairwise ranked, and respects the limit. -/
theorem query_expired_sorted_bounded_witness :
    sampleEntry ∈ sampleStore.query "" none none [] 0 50 false 5 ∧
    sampleEntry.isExpired 5 = false ∧
    (sampleStore.query "" none none [] 0 50 false 5).Pairwise rankGE ∧
    (sampleStore.query "" none none [] 0 50 false 5).length ≤ 50 :=
  ⟨by decide,
   (query_expired_sorted_bounded sampleStore "" none none [] 0 50 false 5
      sampleEntry).1 (by decide),
   (query_expired_sorted_bounded sampleStore "" none none [] 0 50 false 5
      sampleEntry).2.1,
   (query_expired_sorted_bounded sampleStore "" none none [] 0 50 false 5
      sampleEntry).2.2⟩
